/-
Verification of the compman repository's image-tag resolution subsystem and
update orchestrator against its specification.

The development shallowly embeds the Go source:
  - internal/docker/image.go      (registry tag client, version normalizer)
  - internal/strategy  (semver strategy in src/unnamed/part_003, latest.go)
  - internal/compose/updater.go   (update orchestrator)

External effects (HTTP fetches, subprocess execution, the filesystem) are
modelled as explicit environment values passed to the embedded functions.
Go strings are modelled as Lean strings; Go indexes and compares bytes while
Lean works on characters, which agree on ASCII data (all string constants in
the relevant code paths are ASCII).  Go map iteration order is unspecified;
service maps are modelled as association lists, list order standing in for
one iteration order.
-/
import Mathlib

namespace Compman

/-! ## Go string primitives (character-list based, structurally recursive) -/

/-- Model of Go `strings.ToLower` restricted to ASCII (the inputs exercised
by the code are ASCII). -/
def goToLower (s : String) : String := String.mk (s.data.map Char.toLower)

/-- Model of Go `strings.HasPrefix`. -/
def goHasPrefix (s pre : String) : Bool := pre.data.isPrefixOf s.data

/-- Model of Go string slicing `s[n:]` (bytes in Go, characters here; they
agree when the dropped prefix is ASCII, as it always is below). -/
def goDrop (s : String) (n : Nat) : String := String.mk (s.data.drop n)

/-- Split a character list at every occurrence of the separator character,
mirroring Go `strings.Split` with a one-character separator. -/
def splitOnChar (c : Char) : List Char → List (List Char)
  | [] => [[]]
  | x :: xs =>
    let r := splitOnChar c xs
    if x = c then [] :: r
    else
      match r with
      | y :: ys => (x :: y) :: ys
      | [] => [[x]]

/-- Model of Go `strings.Split` with a one-character separator. -/
def goSplitChar (s : String) (c : Char) : List String :=
  (splitOnChar c s.data).map String.mk

/-- Join character lists with a separator character, mirroring Go
`strings.Join`. -/
def joinWithChar (c : Char) : List (List Char) → List Char
  | [] => []
  | [p] => p
  | p :: rest => p ++ c :: joinWithChar c rest

/-- Model of Go `strings.Join` with a one-character separator. -/
def goJoinChar (parts : List String) (c : Char) : String :=
  String.mk (joinWithChar c (parts.map String.data))

/-- Boolean infix test on character lists. -/
def listIsInfix (needle : List Char) : List Char → Bool
  | [] => needle.isEmpty
  | a :: t => needle.isPrefixOf (a :: t) || listIsInfix needle t

/-- Model of Go `strings.Contains`. -/
def goContains (s sub : String) : Bool := listIsInfix sub.data s.data

/-- Model of Go `strings.Contains` with a one-character substring, also
`strings.ContainsRune`. -/
def goContainsChar (s : String) (c : Char) : Bool := s.data.contains c

/-- Parse a non-empty all-digit character list as a natural number,
mirroring Go `strconv.ParseUint` on such inputs (the 64-bit overflow error
of Go is not modelled). -/
def digitsToNat (l : List Char) : Option Nat :=
  if l ≠ [] ∧ l.all Char.isDigit then
    some (l.foldl (fun acc c => acc * 10 + (c.toNat - '0'.toNat)) 0)
  else none

/-- Three-way lexicographic comparison of character lists, mirroring Go's
byte-wise string comparison on ASCII data. -/
def goStrCmp : List Char → List Char → Int
  | [], [] => 0
  | [], _ :: _ => -1
  | _ :: _, [] => 1
  | a :: as, b :: bs => if a < b then -1 else if b < a then 1 else goStrCmp as bs

/-! ## Version normalizer (`cleanVersionTag`, internal/docker/image.go lines
187-200, duplicated as `SemverStrategy.cleanVersionTag`) -/

/-- The fixed list of version prefixes, in the order the Go loop tries
them. -/
def versionPrefixes : List String := ["v", "version", "ver", "release", "rel"]

/-- Embedding of `cleanVersionTag`: lower-case the tag, find the first
prefix (in list order) that the lower-cased tag starts with, and strip that
many leading characters from the original tag. -/
def cleanVersionTag (tag : String) : String :=
  let lowerTag := goToLower tag
  match versionPrefixes.find? (fun p => goHasPrefix lowerTag p) with
  | some p => goDrop tag p.length
  | none => tag

end Compman

namespace Compman

/-! ## Semantic versions

Model of the `github.com/Masterminds/semver/v3` library used by the
strategies.  The library is a dependency, not part of the repository's
sources; the model follows its documented behaviour: `NewVersion` accepts
`v?MAJOR(.MINOR)?(.PATCH)?(-PRERELEASE)?(+METADATA)?` with numeric
components and `[0-9A-Za-z-]` dot-separated prerelease/metadata
identifiers; `Compare` orders by major, minor, patch, then prerelease
precedence (a release outranks any prerelease; prerelease identifiers are
compared dot-segment-wise, numerically when both segments are numeric,
numeric below alphanumeric, missing segments lowest). -/

structure SemVersion where
  major : Nat
  minor : Nat
  patch : Nat
  pre : String
  metadata : String
  /-- The exact string handed to the parser (`Version.Original`). -/
  original : String
deriving DecidableEq, Repr

/-- Characters allowed in prerelease/metadata identifiers. -/
def validPreChar (c : Char) : Bool := c.isAlphanum || c = '-'

/-- A dot-separated list of non-empty identifiers over `validPreChar`. -/
def validDotted (l : List Char) : Bool :=
  (splitOnChar '.' l).all (fun seg => !seg.isEmpty && seg.all validPreChar)

/-- Parse the `MAJOR(.MINOR)?(.PATCH)?` numeric core; missing components
default to zero. -/
def parseNums (l : List Char) : Option (Nat × Nat × Nat) :=
  match splitOnChar '.' l with
  | [a] => (digitsToNat a).map (fun x => (x, 0, 0))
  | [a, b] =>
    match digitsToNat a, digitsToNat b with
    | some x, some y => some (x, y, 0)
    | _, _ => none
  | [a, b, c] =>
    match digitsToNat a, digitsToNat b, digitsToNat c with
    | some x, some y, some z => some (x, y, z)
    | _, _, _ => none
  | _ => none

/-- Parse the part before the metadata: numeric core and optional
prerelease (everything after the first `-`). -/
def parseVersionCore (core : List Char) (meta : String) (orig : String) : Option SemVersion :=
  match splitOnChar '-' core with
  | [] => none
  | nums :: rest =>
    match rest with
    | [] => (parseNums nums).map (fun t => ⟨t.1, t.2.1, t.2.2, "", meta, orig⟩)
    | _ =>
      let pre := joinWithChar '-' rest
      if validDotted pre then
        (parseNums nums).map (fun t => ⟨t.1, t.2.1, t.2.2, String.mk pre, meta, orig⟩)
      else none

/-- Model of `semver.NewVersion`: lenient semantic-version parser with an
optional leading `v`.  Returns `none` exactly when the library returns an
error. -/
def semverNewVersion (s : String) : Option SemVersion :=
  let body :=
    match s.data with
    | 'v' :: rest => rest
    | chars => chars
  match splitOnChar '+' body with
  | [core] => parseVersionCore core "" s
  | [core, meta] =>
    if validDotted meta then parseVersionCore core (String.mk meta) s else none
  | _ => none

/-- Model of the library's comparison of two numeric segments. -/
def compareSegment (a b : Nat) : Int :=
  if a < b then -1 else if a > b then 1 else 0

/-- Model of the library's comparison of one prerelease dot-segment:
equal strings tie; an absent (empty) segment is lowest; a numeric segment
is below an alphanumeric one; numeric segments compare by value (with ties
broken low); alphanumeric segments compare as strings. -/
def comparePrePart (s o : List Char) : Int :=
  if s = o then 0
  else if s = [] then (if o ≠ [] then -1 else 1)
  else if o = [] then 1
  else
    match digitsToNat s, digitsToNat o with
    | some si, some oi => if si > oi then 1 else -1
    | some _, none => -1
    | none, some _ => 1
    | none, none => if goStrCmp s o > 0 then 1 else -1

/-- Walk the two prerelease segment lists in step, padding the shorter one
with empty segments. -/
def comparePreParts : List (List Char) → List (List Char) → Int
  | [], [] => 0
  | [], o :: os =>
    if comparePrePart [] o ≠ 0 then comparePrePart [] o else comparePreParts [] os
  | s :: ss, [] =>
    if comparePrePart s [] ≠ 0 then comparePrePart s [] else comparePreParts ss []
  | s :: ss, o :: os =>
    if comparePrePart s o ≠ 0 then comparePrePart s o else comparePreParts ss os

/-- Compare two prerelease strings dot-segment-wise. -/
def comparePrerelease (s o : String) : Int :=
  comparePreParts (splitOnChar '.' s.data) (splitOnChar '.' o.data)

/-- Model of `Version.Compare`: major, minor, patch, then prerelease
precedence; build metadata is ignored. -/
def versionCompare (a b : SemVersion) : Int :=
  if compareSegment a.major b.major ≠ 0 then compareSegment a.major b.major
  else if compareSegment a.minor b.minor ≠ 0 then compareSegment a.minor b.minor
  else if compareSegment a.patch b.patch ≠ 0 then compareSegment a.patch b.patch
  else if a.pre = "" ∧ b.pre = "" then 0
  else if a.pre = "" then 1
  else if b.pre = "" then -1
  else comparePrerelease a.pre b.pre

/-! ## Version constraints

Model of `semver.Constraints` for the constraint language the repository
exercises: a single constraint of shape `[op] version` where `op` is one of
`=`, `!=`, `>`, `<`, `>=`, `<=`, `~`, `~>`, `^` or absent, and the version
may use `x`/`X`/`*` wildcards (for the no-op, tilde and caret forms).  The
library additionally accepts `||`-disjunctions, comma-conjunctions, hyphen
ranges and wildcarded relational constraints; those are outside this model
and no claim mentions them.  A version with a prerelease satisfies a
constraint only if the constraint itself carries a prerelease. -/

inductive ConstraintOp where
  | eq | neq | gt | lt | ge | le | tilde | caret
deriving DecidableEq, Repr

structure ParsedConstraint where
  op : ConstraintOp
  con : SemVersion
  /-- Some component of the written version was a wildcard or missing. -/
  dirty : Bool
  minorDirty : Bool
  patchDirty : Bool
deriving DecidableEq, Repr

/-- The constraint compiled from `"*"` (and the fallback for invalid
patterns): an unconstrained pseudo-version `0.0.0`. -/
def wildcardConstraint : ParsedConstraint :=
  ⟨ConstraintOp.eq, ⟨0, 0, 0, "", "", "0.0.0"⟩, true, false, false⟩

/-- Strip a leading constraint operator. -/
def parseConstraintOp (l : List Char) : ConstraintOp × List Char :=
  match l with
  | '>' :: '=' :: r => (ConstraintOp.ge, r)
  | '=' :: '>' :: r => (ConstraintOp.ge, r)
  | '<' :: '=' :: r => (ConstraintOp.le, r)
  | '=' :: '<' :: r => (ConstraintOp.le, r)
  | '!' :: '=' :: r => (ConstraintOp.neq, r)
  | '~' :: '>' :: r => (ConstraintOp.tilde, r)
  | '~' :: r => (ConstraintOp.tilde, r)
  | '^' :: r => (ConstraintOp.caret, r)
  | '>' :: r => (ConstraintOp.gt, r)
  | '<' :: r => (ConstraintOp.lt, r)
  | '=' :: r => (ConstraintOp.eq, r)
  | r => (ConstraintOp.eq, r)

/-- One version component of a constraint: a number or a wildcard. -/
inductive ConComp where
  | num (n : Nat)
  | wild
deriving DecidableEq

/-- Classify one dotted component of a constraint version. -/
def parseConComp (l : List Char) : Option ConComp :=
  if l = ['x'] ∨ l = ['X'] ∨ l = ['*'] then some ConComp.wild
  else (digitsToNat l).map ConComp.num

/-- Whether an operator is relational (the model rejects wildcarded
versions under these, see the section comment). -/
def relationalOp : ConstraintOp → Bool
  | ConstraintOp.gt | ConstraintOp.lt | ConstraintOp.ge | ConstraintOp.le
  | ConstraintOp.neq => true
  | _ => false

/-- Assemble a parsed constraint from operator, components and prerelease,
mirroring the library: a wildcard major yields the unconstrained `0.0.0`
pseudo-version with the prerelease dropped; a wildcard or missing minor
(resp. patch) zero-fills it and records `minorDirty` (resp. `patchDirty`). -/
def buildConstraint (op : ConstraintOp) (comps : List ConComp) (pre : String) :
    Option ParsedConstraint :=
  match comps with
  | [] => none
  | ConComp.wild :: _ =>
    if relationalOp op then none else some ⟨op, ⟨0, 0, 0, "", "", "0.0.0"⟩, true, false, false⟩
  | [ConComp.num a] =>
    if relationalOp op then none else some ⟨op, ⟨a, 0, 0, pre, "", ""⟩, true, true, false⟩
  | ConComp.num a :: ConComp.wild :: _ =>
    if relationalOp op then none else some ⟨op, ⟨a, 0, 0, pre, "", ""⟩, true, true, false⟩
  | [ConComp.num a, ConComp.num b] =>
    if relationalOp op then none else some ⟨op, ⟨a, b, 0, pre, "", ""⟩, true, false, true⟩
  | [ConComp.num a, ConComp.num b, ConComp.wild] =>
    if relationalOp op then none else some ⟨op, ⟨a, b, 0, pre, "", ""⟩, true, false, true⟩
  | [ConComp.num a, ConComp.num b, ConComp.num c] =>
    some ⟨op, ⟨a, b, c, pre, "", ""⟩, false, false, false⟩
  | _ => none

/-- Drop leading and trailing spaces and tabs. -/
def trimSpaces (l : List Char) : List Char :=
  ((l.dropWhile (fun c => c = ' ' ∨ c = '\t')).reverse.dropWhile
    (fun c => c = ' ' ∨ c = '\t')).reverse

/-- Model of `semver.NewConstraint` on the modelled constraint subset.
Returns `none` exactly when the library reports an invalid constraint.
An empty pattern compiles to the unconstrained constraint, as in the
library. -/
def parseConstraints (s : String) : Option ParsedConstraint :=
  let l := trimSpaces s.data
  if l = [] then some wildcardConstraint
  else
    let (op, rest) := parseConstraintOp l
    let rest := trimSpaces rest
    let rest := match rest with | 'v' :: r => r | r => r
    match splitOnChar '+' rest with
    | [core] =>
      (match splitOnChar '-' core with
       | [] => none
       | nums :: preRest =>
         let pre := joinWithChar '-' preRest
         if preRest ≠ [] ∧ ¬ validDotted pre then none
         else
           match (splitOnChar '.' nums).mapM parseConComp with
           | some comps =>
             buildConstraint op comps (if preRest = [] then "" else String.mk pre)
           | none => none)
    | [core, meta] =>
      if ¬ validDotted meta then none
      else
        (match splitOnChar '-' core with
         | [] => none
         | nums :: preRest =>
           let pre := joinWithChar '-' preRest
           if preRest ≠ [] ∧ ¬ validDotted pre then none
           else
             match (splitOnChar '.' nums).mapM parseConComp with
             | some comps =>
               buildConstraint op comps (if preRest = [] then "" else String.mk pre)
             | none => none)
    | _ => none

/-- Tilde check (also used for the no-op/`=` forms on wildcarded versions):
`~x.y.z` keeps versions at least the constraint version within the same
major (and, unless the minor was wildcarded, the same minor); the
pseudo-version `0.0.0` from `*` accepts everything. -/
def tildeCheck (c : ParsedConstraint) (v : SemVersion) : Bool :=
  if versionCompare v c.con = -1 then false
  else if c.con.major = 0 ∧ c.con.minor = 0 ∧ c.con.patch = 0
          ∧ !c.minorDirty ∧ !c.patchDirty then true
  else if v.major ≠ c.con.major then false
  else if v.minor ≠ c.con.minor ∧ !c.minorDirty then false
  else true

/-- Caret check: versions at least the constraint version that stay within
the leftmost non-zero component of the constraint version. -/
def caretCheck (c : ParsedConstraint) (v : SemVersion) : Bool :=
  if versionCompare v c.con = -1 then false
  else if c.con.major > 0 ∨ c.minorDirty then v.major = c.con.major
  else if v.major > 0 then false
  else if c.con.minor > 0 ∨ c.patchDirty then v.minor = c.con.minor
  else if v.minor > 0 then false
  else v.patch = c.con.patch

/-- Model of `Constraints.Check` on the modelled subset.  Prerelease
versions are rejected unless the constraint itself names a prerelease. -/
def constraintCheck (c : ParsedConstraint) (v : SemVersion) : Bool :=
  if v.pre ≠ "" ∧ c.con.pre = "" then false
  else
    match c.op with
    | ConstraintOp.eq => if c.dirty then tildeCheck c v else versionCompare v c.con = 0
    | ConstraintOp.tilde => tildeCheck c v
    | ConstraintOp.caret => caretCheck c v
    | ConstraintOp.gt => versionCompare v c.con = 1
    | ConstraintOp.ge => versionCompare v c.con ≥ 0
    | ConstraintOp.lt => versionCompare v c.con = -1
    | ConstraintOp.le => versionCompare v c.con ≤ 0
    | ConstraintOp.neq => ¬ versionCompare v c.con = 0

/-! ## Semver strategy (src/unnamed/part_003, `SemverStrategy`)

`GetLatestTag` performs one external call, the tag fetch
(`imageManager.GetImageTags`); the embedding receives that call's outcome
as an `Except` argument. -/

structure SemverStrategy where
  pattern : String
  constraint : ParsedConstraint
deriving DecidableEq, Repr

/-- Embedding of `NewSemverStrategy`: an empty pattern becomes `"*"`; a
pattern the constraint parser rejects silently falls back to the `"*"`
constraint.  Construction never fails. -/
def newSemverStrategy (pattern : String) : SemverStrategy :=
  let pattern := if pattern = "" then "*" else pattern
  match parseConstraints pattern with
  | some c => ⟨pattern, c⟩
  | none => ⟨pattern, wildcardConstraint⟩

/-- Embedding of `SemverStrategy.parseVersion`: normalize, then parse.
The parsed version's `original` field is the normalized string, because
that is what is handed to `semver.NewVersion`. -/
def semverParseVersion (tag : String) : Option SemVersion :=
  semverNewVersion (cleanVersionTag tag)

/-- Embedding of `SemverStrategy.ValidateTag`. -/
def semverValidateTag (s : SemverStrategy) (tag : String) : Bool :=
  match semverParseVersion tag with
  | none => false
  | some v => constraintCheck s.constraint v

/-- The fetched tags that parse and satisfy the constraint, in fetch
order (the loop body of `GetLatestTag` lines 53-64). -/
def survivingVersions (c : ParsedConstraint) (tags : List String) : List SemVersion :=
  tags.filterMap (fun tag =>
    match semverParseVersion tag with
    | none => none
    | some v => if constraintCheck c v then some v else none)

/-- The sort `sort.Sort(semver.Collection(validVersions))`.  Go's sort is
unstable, so the order among versions that compare equal is unspecified
there; insertion sort by `versionCompare · · ≤ 0` realizes one admissible
outcome. -/
def sortVersions (l : List SemVersion) : List SemVersion :=
  List.insertionSort (fun a b => versionCompare a b ≤ 0) l

/-- The error text of the empty-survivor branch of `GetLatestTag`. -/
def resolutionFailedMsg : String := "未找到符合条件的语义版本标签"

/-- `GetLatestTag` after a successful tag fetch: filter, sort, return the
`Original()` string of the last (greatest) surviving version. -/
def semverGetLatestTagCore (c : ParsedConstraint) (tags : List String) : Except String String :=
  match (sortVersions (survivingVersions c tags)).getLast? with
  | none => Except.error resolutionFailedMsg
  | some latest => Except.ok latest.original

/-- Embedding of `SemverStrategy.GetLatestTag`, parameterized by the
outcome of the tag fetch. -/
def semverGetLatestTag (s : SemverStrategy) (fetched : Except String (List String)) :
    Except String String :=
  match fetched with
  | Except.error e => Except.error ("获取镜像标签失败: " ++ e)
  | Except.ok tags => semverGetLatestTagCore s.constraint tags

/-! ## Image manager (internal/docker/image.go)

The HTTP layer is modelled as an environment mapping a repository path to
the outcome of the Docker Hub tag-listing request: the list of `name`
fields of the decoded response on a 2xx response, or an error for a
transport failure, non-2xx status or undecodable body. -/

structure RegistryEnv where
  hub : String → Except String (List String)

/-- Embedding of `parseImageName`'s opening tag strip: everything from the
first `:` on is removed. -/
def stripTagPart (imageName : String) : String :=
  if goContainsChar imageName ':' then (goSplitChar imageName ':').headD ""
  else imageName

/-- Embedding of `ImageManager.parseImageName` (lines 107-126): split the
(tag-stripped) name into registry and repository. -/
def parseImageName (imageName : String) : String × String :=
  let name := stripTagPart imageName
  let parts := goSplitChar name '/'
  if parts.length = 1 then ("docker.io", "library/" ++ parts.headD "")
  else if parts.length = 2 ∧ goContainsChar (parts.headD "") '.' = false then
    ("docker.io", parts.headD "" ++ "/" ++ parts.getD 1 "")
  else (parts.headD "", goJoinChar (parts.drop 1) '/')

/-- The registry/repository split rule exactly as the specification words
it, defined on the name as given (no tag stripping): no `/` means an
official `library/<name>` repository; exactly one `/` with a dot-free
first segment means a namespace under the default registry; otherwise the
first segment is a custom registry host. -/
def specSplitRule (name : String) : String × String :=
  let parts := goSplitChar name '/'
  if parts.length = 1 then ("docker.io", "library/" ++ parts.headD "")
  else if parts.length = 2 ∧ goContainsChar (parts.headD "") '.' = false then
    ("docker.io", parts.headD "" ++ "/" ++ parts.getD 1 "")
  else (parts.headD "", goJoinChar (parts.drop 1) '/')

/-- The tag-list post-processing of `getDockerHubTags` (lines 155-165):
collect the result names; if none, synthesize `["latest"]`. -/
def dockerHubTagsOfResults (resultNames : List String) : List String :=
  if resultNames.isEmpty then ["latest"] else resultNames

/-- Embedding of `getDockerHubTags`, parameterized by the HTTP outcome. -/
def getDockerHubTags (env : RegistryEnv) (repository : String) : Except String (List String) :=
  (env.hub repository).map dockerHubTagsOfResults

/-- Embedding of `getRegistryTags`: the custom-registry fallback always
returns `["latest"]`. -/
def getRegistryTags : Except String (List String) := Except.ok ["latest"]

/-- Embedding of `ImageManager.GetImageTags`. -/
def getImageTags (env : RegistryEnv) (imageName : String) : Except String (List String) :=
  let rr := parseImageName imageName
  if rr.1 = "docker.io" ∨ rr.1 = "" then getDockerHubTags env rr.2
  else getRegistryTags

/-- Embedding of `ImageManager.ValidateImageExists`: fetch the tags and
report whether there is at least one. -/
def validateImageExists (env : RegistryEnv) (imageName : String) : Except String Bool :=
  (getImageTags env imageName).map (fun tags => decide (0 < tags.length))

/-! ## Latest strategy (internal/strategy/latest.go) -/

/-- Embedding of `LatestStrategy.isPort`: one to five characters, all
digits (no numeric range check in this copy). -/
def latestIsPort (str : String) : Bool :=
  if str.length < 1 ∨ str.length > 5 then false
  else str.data.all Char.isDigit

/-- Embedding of `LatestStrategy.extractImageName`: drop a digest suffix
at `@`, else drop a trailing tag at the last `:` unless that last segment
is a port number. -/
def latestExtractImageName (image : String) : String :=
  if goContainsChar image '@' then (goSplitChar image '@').headD ""
  else if goContainsChar image ':' then
    let parts := goSplitChar image ':'
    if parts.length ≥ 2 then
      if latestIsPort (parts.getLastD "") then image
      else goJoinChar (parts.dropLast) ':'
    else image
  else image

/-- Embedding of `LatestStrategy.GetLatestTag`: validate that the image
has at least one tag, then return the literal `"latest"`. -/
def latestGetLatestTag (env : RegistryEnv) (image : String) : Except String String :=
  let imageName := latestExtractImageName image
  match validateImageExists env imageName with
  | Except.error e => Except.error ("验证镜像 " ++ imageName ++ " 时出错: " ++ e)
  | Except.ok ex =>
    if !ex then Except.error ("镜像 " ++ imageName ++ " 不存在")
    else Except.ok "latest"

/-! ## Update orchestrator (internal/compose/updater.go)

Subprocess execution and the filesystem are modelled as per-file
environment values.  `UpdatedAt` timestamps are not modelled.  Only the
`DryRun` field of the configuration is consulted by the embedded code
paths. -/

structure GoService where
  image : String
deriving DecidableEq, Repr

structure GoComposeFile where
  filePath : String
  /-- The `Services` map as an association list; Go's map iteration order
  is unspecified, the list order stands in for one iteration order. -/
  services : List (String × GoService)
deriving DecidableEq, Repr

structure UpdateResult where
  service : String
  oldImage : String
  newImage : String
  success : Bool
  error : Option String
deriving DecidableEq, Repr

structure UpdaterConfig where
  dryRun : Bool
deriving DecidableEq, Repr

/-- Outcome of the pull phase's subprocess handling: pipe creation or
`Start` can fail before the process runs; otherwise `Wait` returns `none`
(exit status zero) or an error (non-zero exit, or the kill after the
10-minute timeout). -/
inductive PullExec where
  | stdoutPipeFail (msg : String)
  | stderrPipeFail (msg : String)
  | startFail (msg : String)
  | ran (waitErr : Option String)
deriving DecidableEq, Repr

/-- Outcome of the up phase's `CombinedOutput`: optional process error
(non-zero exit or the kill after the 5-minute timeout) plus the combined
output text. -/
structure UpExec where
  err : Option String
  output : String
deriving DecidableEq, Repr

structure FileEnv where
  fileWasFound : Bool
  pull : PullExec
  up : UpExec
deriving DecidableEq, Repr

/-- The simulated result the dry-run branch builds for every service. -/
def simulatedResult (serviceName : String) : UpdateResult :=
  ⟨serviceName, "模拟 - 当前镜像", "模拟 - 最新镜像", true, none⟩

/-- Embedding of `executeDockerComposePullWithProgress` (lines 152-215):
after `Wait` returns, one result per service with a non-empty image;
success is exactly `Wait`'s error being nil, in which case the new-image
field gains the `" (已拉取)"` annotation.  The function itself errors only
when a pipe cannot be created or the command cannot start. -/
def executePull (e : PullExec) (cf : GoComposeFile) : Except String (List UpdateResult) :=
  match e with
  | PullExec.stdoutPipeFail m => Except.error ("无法获取stdout管道: " ++ m)
  | PullExec.stderrPipeFail m => Except.error ("无法获取stderr管道: " ++ m)
  | PullExec.startFail m => Except.error ("启动命令失败: " ++ m)
  | PullExec.ran waitErr =>
    Except.ok (cf.services.filterMap (fun sv =>
      if sv.2.image = "" then none
      else some ⟨sv.1, sv.2.image,
        (if waitErr.isNone then sv.2.image ++ " (已拉取)" else sv.2.image),
        waitErr.isNone, waitErr⟩))

/-- Embedding of `executeDockerComposeUpWithProgress` (lines 217-264):
one result per service with a non-empty image; success is exactly the
process error being nil; a `"Starting"`/`"Recreating"` line naming the
service only embellishes the new-image label.  The Go function always
returns a nil error. -/
def executeUp (e : UpExec) (cf : GoComposeFile) : List UpdateResult :=
  cf.services.filterMap (fun sv =>
    if sv.2.image = "" then none
    else some ⟨sv.1, sv.2.image,
      (if goContains e.output sv.1
          && (goContains e.output "Starting" || goContains e.output "Recreating")
        then sv.2.image ++ " (已重启)" else sv.2.image),
      e.err.isNone, e.err⟩)

/-- Embedding of `updateComposeFileWithProgress` (lines 100-149): missing
file short-circuits to an error; dry-run synthesizes one simulated result
per service (with no image filter); otherwise pull then up, concatenating
their results.  Only a pull-phase function-level error aborts before the
up phase. -/
def updateComposeFileWithProgress (cfg : UpdaterConfig) (env : FileEnv) (cf : GoComposeFile) :
    Except String (List UpdateResult) :=
  if !env.fileWasFound then Except.error ("文件不存在: " ++ cf.filePath)
  else if cfg.dryRun then
    Except.ok (cf.services.map (fun sv => simulatedResult sv.1))
  else
    match executePull env.pull cf with
    | Except.error e => Except.error ("拉取镜像失败: " ++ e)
    | Except.ok pullResults => Except.ok (pullResults ++ executeUp env.up cf)

/-- Whether `executePull` reports a function-level error (pipe creation or
start failure); `Wait` errors do not. -/
def pullPhaseErrored : PullExec → Bool
  | PullExec.ran _ => false
  | _ => true

/-- Whether the control flow of `updateComposeFileWithProgress` reaches
the call to `executeDockerComposeUpWithProgress`: the file exists, dry-run
is off, and the pull phase returned without a function-level error. -/
def upPhaseInvoked (cfg : UpdaterConfig) (env : FileEnv) : Bool :=
  env.fileWasFound && !cfg.dryRun && !pullPhaseErrored env.pull

/-- Model of Go `filepath.Base` for slash-separated paths. -/
def filepathBase (path : String) : String :=
  if path = "" then "."
  else
    let noSlash := (path.data.reverse.dropWhile (fun c => c = '/')).reverse
    if noSlash = [] then "/"
    else String.mk ((splitOnChar '/' noSlash).getLastD noSlash)

/-- The block of results one file contributes to the aggregate of
`UpdateImagesWithProgress` (lines 69-98): the per-file results on success,
or one synthetic failure result labelled with the file's base name. -/
def fileResults (cfg : UpdaterConfig) (env : FileEnv) (cf : GoComposeFile) : List UpdateResult :=
  match updateComposeFileWithProgress cfg env cf with
  | Except.error e => [⟨"文件: " ++ filepathBase cf.filePath, "N/A", "N/A", false, some e⟩]
  | Except.ok rs => rs

/-- Embedding of `UpdateImagesWithProgress`: sequential loop over the
submitted files (each paired with its environment), concatenating the
per-file blocks. -/
def updateImagesWithProgress (cfg : UpdaterConfig)
    (files : List (FileEnv × GoComposeFile)) : List UpdateResult :=
  (files.map (fun p => fileResults cfg p.1 p.2)).flatten

/-- Environment of `updateComposeFileSimple`: both phases run via
`CombinedOutput`, each yielding an optional process error and the combined
output text. -/
structure SimpleEnv where
  fileWasFound : Bool
  pullErr : Option String
  pullOutput : String
  upErr : Option String
  upOutput : String
deriving DecidableEq, Repr

/-- Embedding of `updateComposeFileSimple` (lines 300-398): missing file
or a failing subprocess return an error; otherwise one result per service
with a non-empty image whose success flag is computed by text-matching
`"ERROR"`/`"failed"` in the combined outputs, not from exit status. -/
def updateComposeFileSimple (cfg : UpdaterConfig) (env : SimpleEnv) (cf : GoComposeFile) :
    Except String (List UpdateResult) :=
  if !env.fileWasFound then Except.error ("文件不存在: " ++ cf.filePath)
  else if cfg.dryRun then
    Except.ok (cf.services.map (fun sv => simulatedResult sv.1))
  else
    match env.pullErr with
    | some e => Except.error ("执行 docker-compose pull 失败: " ++ e ++ "\n输出: " ++ env.pullOutput)
    | none =>
      match env.upErr with
      | some e => Except.error ("执行 docker-compose up -d 失败: " ++ e ++ "\n输出: " ++ env.upOutput)
      | none =>
        Except.ok (cf.services.filterMap (fun sv =>
          if sv.2.image = "" then none
          else
            let hasError := goContains env.pullOutput "ERROR" || goContains env.upOutput "ERROR"
              || goContains env.pullOutput "failed" || goContains env.upOutput "failed"
            let serviceUpdated := goContains env.pullOutput sv.1
              && (goContains env.pullOutput "Pulling" || goContains env.pullOutput "Downloaded")
            some ⟨sv.1, sv.2.image,
              (if !hasError && serviceUpdated then sv.2.image ++ " (已更新)" else sv.2.image),
              !hasError,
              (if hasError then some "更新过程中出现错误，请检查日志" else none)⟩))

/-- The block of results one file contributes to the aggregate of
`UpdateImages` (lines 44-67). -/
def fileResultsSimple (cfg : UpdaterConfig) (env : SimpleEnv) (cf : GoComposeFile) :
    List UpdateResult :=
  match updateComposeFileSimple cfg env cf with
  | Except.error e => [⟨"文件: " ++ filepathBase cf.filePath, "N/A", "N/A", false, some e⟩]
  | Except.ok rs => rs

/-- Embedding of `UpdateImages`. -/
def updateImages (cfg : UpdaterConfig)
    (files : List (SimpleEnv × GoComposeFile)) : List UpdateResult :=
  (files.map (fun p => fileResultsSimple cfg p.1 p.2)).flatten

/-! ## Concrete fixtures used by witnesses and counterexamples -/

/-- A service with an image. -/
def svcWeb : String × GoService := ("web", ⟨"nginx:latest"⟩)

/-- A build-only service: empty image string. -/
def svcWorker : String × GoService := ("worker", ⟨""⟩)

/-- One compose file with an image-bearing service and a build-only one. -/
def cfWebWorker : GoComposeFile := ⟨"/srv/app/docker-compose.yml", [svcWeb, svcWorker]⟩

/-- A compose file whose only service is build-only. -/
def cfBuildOnly : GoComposeFile := ⟨"/srv/b/docker-compose.yml", [("builder", ⟨""⟩)]⟩

/-- Environment: file present, both subprocesses run and exit zero. -/
def envAllOk : FileEnv := ⟨true, PullExec.ran none, ⟨none, ""⟩⟩

/-- Environment: file present, pull subprocess runs but is killed by the
phase timeout, up subprocess would exit zero. -/
def envPullTimeout : FileEnv :=
  ⟨true, PullExec.ran (some "signal: killed (context deadline exceeded)"), ⟨none, "Starting web"⟩⟩

/-- Environment: file present, pull phase cannot start its subprocess. -/
def envPullStartFail : FileEnv := ⟨true, PullExec.startFail "exec: not found", ⟨none, ""⟩⟩

/-- Simple-path environment: both subprocesses exit zero but the pull
output mentions `failed`. -/
def envSimpleTextFail : SimpleEnv :=
  ⟨true, none, "Pulling web ... pull access failed for helper image", none, "Starting web"⟩

/-- Registry environment whose hub endpoint always answers with an empty
tag list. -/
def envHubEmpty : RegistryEnv := ⟨fun _ => Except.ok []⟩

end Compman

namespace Compman

/-! ## General list lemmas -/

theorem cmLastMem {α : Type} : ∀ (l : List α) (x : α), l.getLast? = some x → x ∈ l := by
  intro l
  induction l with
  | nil => intro x h; simp at h
  | cons a t ih =>
    intro x h
    cases t with
    | nil =>
      simp at h
      simp [h]
    | cons b t2 =>
      rw [List.getLast?_cons_cons] at h
      exact List.mem_cons_of_mem a (ih x h)

theorem cmLastIsSome {α : Type} : ∀ (a : α) (t : List α), (a :: t).getLast? ≠ none := by
  intro a t
  induction t generalizing a with
  | nil => simp
  | cons b t2 ih => rw [List.getLast?_cons_cons]; exact ih b

theorem cmPairwiseOrderedInsert {α : Type} (r : α → α → Prop) [DecidableRel r] (a : α) :
    ∀ (l : List α), l.Pairwise r →
      (∀ b ∈ l, r a b ∨ r b a) →
      (∀ b ∈ l, ∀ c ∈ l, r a b → r b c → r a c) →
      (List.orderedInsert r a l).Pairwise r := by
  intro l
  induction l with
  | nil =>
    intro _ _ _
    simp [List.orderedInsert]
  | cons b t ih =>
    intro hp htot htr
    by_cases hab : r a b
    · simp only [List.orderedInsert, if_pos hab]
      refine List.Pairwise.cons ?_ hp
      intro x hx
      rcases List.mem_cons.mp hx with rfl | hx2
      · exact hab
      · exact htr b (List.mem_cons_self b t) x (List.mem_cons_of_mem b hx2) hab
          ((List.pairwise_cons.mp hp).1 x hx2)
    · simp only [List.orderedInsert, if_neg hab]
      refine List.Pairwise.cons ?_ ?_
      · intro x hx
        rcases (List.mem_orderedInsert r).mp hx with rfl | hx2
        · rcases htot b (List.mem_cons_self b t) with h | h
          · exact absurd h hab
          · exact h
        · exact (List.pairwise_cons.mp hp).1 x hx2
      · exact ih (List.pairwise_cons.mp hp).2
          (fun c hc => htot c (List.mem_cons_of_mem b hc))
          (fun c hc d hd => htr c (List.mem_cons_of_mem b hc) d (List.mem_cons_of_mem b hd))

theorem cmPairwiseInsertionSort {α : Type} (r : α → α → Prop) [DecidableRel r] :
    ∀ (l : List α),
      (∀ a ∈ l, ∀ b ∈ l, r a b ∨ r b a) →
      (∀ a ∈ l, ∀ b ∈ l, ∀ c ∈ l, r a b → r b c → r a c) →
      (List.insertionSort r l).Pairwise r := by
  intro l
  induction l with
  | nil => intro _ _; simp [List.insertionSort]
  | cons a t ih =>
    intro htot htr
    have hperm := List.perm_insertionSort r t
    simp only [List.insertionSort]
    apply cmPairwiseOrderedInsert
    · exact ih
        (fun x hx y hy => htot x (List.mem_cons_of_mem a hx) y (List.mem_cons_of_mem a hy))
        (fun x hx y hy z hz => htr x (List.mem_cons_of_mem a hx) y (List.mem_cons_of_mem a hy)
          z (List.mem_cons_of_mem a hz))
    · intro b hb
      exact htot a (List.mem_cons_self a t) b (List.mem_cons_of_mem a (hperm.mem_iff.mp hb))
    · intro b hb c hc hab hbc
      exact htr a (List.mem_cons_self a t) b (List.mem_cons_of_mem a (hperm.mem_iff.mp hb))
        c (List.mem_cons_of_mem a (hperm.mem_iff.mp hc)) hab hbc

theorem cmPairwiseGetLastUb {α : Type} (r : α → α → Prop) :
    ∀ (l : List α) (v : α), l.Pairwise r → l.getLast? = some v →
      ∀ w ∈ l, w = v ∨ r w v := by
  intro l
  induction l with
  | nil => intro v _ h; simp at h
  | cons a t ih =>
    intro v hp hl w hw
    cases t with
    | nil =>
      simp at hl
      subst hl
      simp at hw
      exact Or.inl hw
    | cons b t2 =>
      rw [List.getLast?_cons_cons] at hl
      rcases List.mem_cons.mp hw with rfl | hw2
      · exact Or.inr ((List.pairwise_cons.mp hp).1 v (cmLastMem _ v hl))
      · exact ih v (List.pairwise_cons.mp hp).2 hl w hw2

theorem cmMemFilterMapNeNil {α β : Type} (f : α → Option β) (l : List α) (a : α) (b : β)
    (ha : a ∈ l) (hb : f a = some b) : l.filterMap f ≠ [] := by
  intro hnil
  have : b ∈ l.filterMap f := List.mem_filterMap.mpr ⟨a, ha, hb⟩
  rw [hnil] at this
  simp at this

/-! ## Ordering lemmas for release (prerelease-free) versions -/

theorem versionCompare_le_preFree (a b : SemVersion) (ha : a.pre = "") (hb : b.pre = "") :
    (versionCompare a b ≤ 0 ↔
      (a.major < b.major ∨ (a.major = b.major
        ∧ (a.minor < b.minor ∨ (a.minor = b.minor ∧ a.patch ≤ b.patch))))) := by
  simp only [versionCompare, compareSegment, ha, hb]
  split_ifs <;> simp_all <;> omega

theorem versionCompareLe_total_preFree (a b : SemVersion) (ha : a.pre = "") (hb : b.pre = "") :
    versionCompare a b ≤ 0 ∨ versionCompare b a ≤ 0 := by
  rw [versionCompare_le_preFree a b ha hb, versionCompare_le_preFree b a hb ha]
  omega

theorem versionCompareLe_trans_preFree (a b c : SemVersion)
    (ha : a.pre = "") (hb : b.pre = "") (hc : c.pre = "") :
    versionCompare a b ≤ 0 → versionCompare b c ≤ 0 → versionCompare a c ≤ 0 := by
  rw [versionCompare_le_preFree a b ha hb, versionCompare_le_preFree b c hb hc,
    versionCompare_le_preFree a c ha hc]
  omega

/-! ## Claim C3: idempotence of the normalizer -/

/-- Claim C3 counterexample: `cleanVersionTag` is not idempotent.  One
application strips a single prefix, so `"vv1.0.0"` normalizes to
`"v1.0.0"`, which still carries a strippable `"v"`. -/
theorem cleanVersionTag_not_idempotent :
    cleanVersionTag "vv1.0.0" = "v1.0.0"
    ∧ cleanVersionTag (cleanVersionTag "vv1.0.0") = "1.0.0"
    ∧ cleanVersionTag (cleanVersionTag "vv1.0.0") ≠ cleanVersionTag "vv1.0.0" := by
  refine ⟨rfl, rfl, ?_⟩
  decide

/-- Claim C3 (amended): the normalizer strips at most one prefix per
application, hence it is idempotent exactly on tags whose normalized form
does not itself start (case-insensitively) with one of the version
prefixes. -/
theorem cleanVersionTag_idempotent_of_clean_output (t : String)
    (h : ∀ p ∈ versionPrefixes, goHasPrefix (goToLower (cleanVersionTag t)) p = false) :
    cleanVersionTag (cleanVersionTag t) = cleanVersionTag t := by
  have hfind : versionPrefixes.find? (fun p => goHasPrefix (goToLower (cleanVersionTag t)) p) = none := by
    apply List.find?_eq_none.mpr
    intro p hp
    simp [h p hp]
  show (match versionPrefixes.find? (fun p => goHasPrefix (goToLower (cleanVersionTag t)) p) with
        | some p => goDrop (cleanVersionTag t) p.length
        | none => cleanVersionTag t) = cleanVersionTag t
  rw [hfind]

/-- Witness for the amended C3 theorem at the concrete tag `"v1.2.3"`,
whose normalized form `"1.2.3"` starts with no version prefix. -/
theorem cleanVersionTag_idempotent_witness :
    cleanVersionTag (cleanVersionTag "v1.2.3") = cleanVersionTag "v1.2.3" :=
  cleanVersionTag_idempotent_of_clean_output "v1.2.3" (by decide)

/-! ## Claim C1: Semver-strategy tag resolution -/

/-- Claim C1 counterexample: `GetLatestTag` returns `Original()` of a
version that was parsed from the *normalized* tag, so for the fetched tag
list `["v1.2.3"]` it returns `"1.2.3"`, which is not the original fetched
tag string. -/
theorem semver_resolve_returns_normalized_tag :
    semverGetLatestTag (newSemverStrategy "^1.0.0") (Except.ok ["v1.2.3"]) = Except.ok "1.2.3"
    ∧ ¬ ("1.2.3" ∈ ["v1.2.3"]) := by
  refine ⟨rfl, ?_⟩
  decide

/-- Claim C1 (amended): on a successful tag fetch, Semver resolution
normalizes each tag, parses it, discards unparseable tags, keeps the
constraint-satisfying ones, fails with the resolution error exactly when
none survive, and otherwise returns the *normalized* tag string
(`Original()` of the parsed cleaned tag) of the version the sort places
last — which, whenever the surviving versions are release versions (no
prerelease), is a maximum under semantic-version ordering.  In particular
Scenario A resolves `["1.0.0","1.2.3","2.0.0","latest"]` under `"^1.0.0"`
to `"1.2.3"`. -/
theorem semver_resolution_spec (s : SemverStrategy) (tags : List String) :
    (semverGetLatestTag s (Except.ok tags) = Except.error resolutionFailedMsg
       ↔ survivingVersions s.constraint tags = [])
    ∧ (∀ out, semverGetLatestTag s (Except.ok tags) = Except.ok out →
        ∃ v, v ∈ survivingVersions s.constraint tags ∧ out = v.original ∧
          ((∀ w ∈ survivingVersions s.constraint tags, w.pre = "") →
            ∀ w ∈ survivingVersions s.constraint tags, versionCompare w v ≤ 0))
    ∧ semverGetLatestTag (newSemverStrategy "^1.0.0")
        (Except.ok ["1.0.0", "1.2.3", "2.0.0", "latest"]) = Except.ok "1.2.3" := by
  have hperm : (sortVersions (survivingVersions s.constraint tags)).Perm
      (survivingVersions s.constraint tags) :=
    List.perm_insertionSort _ _
  refine ⟨?_, ?_, rfl⟩
  · cases hlast : (sortVersions (survivingVersions s.constraint tags)).getLast? with
    | none =>
      have hsorted : sortVersions (survivingVersions s.constraint tags) = [] := by
        cases hs : sortVersions (survivingVersions s.constraint tags) with
        | nil => rfl
        | cons a t => exact absurd (hs ▸ hlast) (cmLastIsSome a t)
      have hsurv : survivingVersions s.constraint tags = [] :=
        ((hsorted ▸ hperm).symm).eq_nil
      simp only [semverGetLatestTag, semverGetLatestTagCore, hlast]
      simp [hsurv]
    | some v =>
      have hv : v ∈ survivingVersions s.constraint tags :=
        hperm.mem_iff.mp (cmLastMem _ v hlast)
      simp only [semverGetLatestTag, semverGetLatestTagCore, hlast]
      constructor
      · intro h
        exact absurd h (by simp)
      · intro h
        rw [h] at hv
        simp at hv
  · intro out hout
    cases hlast : (sortVersions (survivingVersions s.constraint tags)).getLast? with
    | none => simp [semverGetLatestTag, semverGetLatestTagCore, hlast] at hout
    | some v =>
      simp only [semverGetLatestTag, semverGetLatestTagCore, hlast, Except.ok.injEq] at hout
      refine ⟨v, hperm.mem_iff.mp (cmLastMem _ v hlast), hout.symm, ?_⟩
      intro hpre w hw
      have hv : v ∈ survivingVersions s.constraint tags :=
        hperm.mem_iff.mp (cmLastMem _ v hlast)
      have hpairwise : (sortVersions (survivingVersions s.constraint tags)).Pairwise
          (fun a b => versionCompare a b ≤ 0) := by
        apply cmPairwiseInsertionSort
        · intro a ha b hb
          exact versionCompareLe_total_preFree a b (hpre a ha) (hpre b hb)
        · intro a ha b hb c hc
          exact versionCompareLe_trans_preFree a b c (hpre a ha) (hpre b hb) (hpre c hc)
      have hub := cmPairwiseGetLastUb (fun a b => versionCompare a b ≤ 0) _ v hpairwise hlast
        w (hperm.mem_iff.mpr hw)
      rcases hub with heq | h
      · rw [heq]
        rcases versionCompareLe_total_preFree v v (hpre v hv) (hpre v hv) with h2 | h2 <;> exact h2
      · exact h

/-- Witness for the amended C1 theorem at Scenario A: the strategy built
from `"^1.0.0"` on fetched tags `["1.0.0","1.2.3","2.0.0","latest"]`
resolves to `"1.2.3"`, the normalized tag of a maximal surviving
version. -/
theorem semver_resolution_spec_witness :
    ∃ v, v ∈ survivingVersions (newSemverStrategy "^1.0.0").constraint
        ["1.0.0", "1.2.3", "2.0.0", "latest"] ∧ ("1.2.3" : String) = v.original ∧
      ((∀ w ∈ survivingVersions (newSemverStrategy "^1.0.0").constraint
          ["1.0.0", "1.2.3", "2.0.0", "latest"], w.pre = "") →
        ∀ w ∈ survivingVersions (newSemverStrategy "^1.0.0").constraint
          ["1.0.0", "1.2.3", "2.0.0", "latest"], versionCompare w v ≤ 0) :=
  (semver_resolution_spec (newSemverStrategy "^1.0.0")
    ["1.0.0", "1.2.3", "2.0.0", "latest"]).2.1 "1.2.3" rfl

/-! ## Claim C4: invalid constraint patterns fall back to the wildcard -/

/-- Claim C4: constructing a Semver strategy from an invalid pattern never
fails (construction is total) and yields the `"*"` constraint, so tag
resolution and tag validation coincide with those of the `"*"`
strategy. -/
theorem semver_invalid_pattern_behaves_as_wildcard :
    (newSemverStrategy "not-a-constraint").constraint = (newSemverStrategy "*").constraint
    ∧ (∀ fetched, semverGetLatestTag (newSemverStrategy "not-a-constraint") fetched
        = semverGetLatestTag (newSemverStrategy "*") fetched)
    ∧ (∀ tag, semverValidateTag (newSemverStrategy "not-a-constraint") tag
        = semverValidateTag (newSemverStrategy "*") tag) := by
  refine ⟨rfl, ?_, ?_⟩
  · intro fetched
    cases fetched <;> rfl
  · intro tag
    rfl

/-! ## Claim C9: empty registry answers synthesize `latest` -/

/-- Claim C9: a successful Docker Hub response with zero tags makes the
tag client return exactly `["latest"]`, and the `"*"` Semver strategy
fails with the resolution error on that list, because the literal tag
`latest` is not a parseable semantic version. -/
theorem registry_empty_tags_synthesize_latest :
    dockerHubTagsOfResults [] = ["latest"]
    ∧ getDockerHubTags envHubEmpty "library/nginx" = Except.ok ["latest"]
    ∧ semverParseVersion "latest" = none
    ∧ semverGetLatestTag (newSemverStrategy "*") (Except.ok ["latest"])
        = Except.error resolutionFailedMsg :=
  ⟨rfl, rfl, rfl, rfl⟩

/-! ## Claim C8: registry/repository split -/

/-- Claim C8 counterexample: `parseImageName` first truncates the name at
the first `:`, so a custom registry host carrying a port is mangled into
an official-library repository instead of following the stated split
rule. -/
theorem parseImageName_breaks_rule_on_registry_port :
    parseImageName "registry.com:5000/repo" = ("docker.io", "library/registry.com")
    ∧ specSplitRule "registry.com:5000/repo" = ("registry.com:5000", "repo")
    ∧ parseImageName "registry.com:5000/repo" ≠ specSplitRule "registry.com:5000/repo" := by
  refine ⟨rfl, rfl, ?_⟩
  decide

/-- Claim C8 (amended): `parseImageName` applies the stated split rule to
the name truncated at its first `:`; in particular on every name without a
`:` the stated rule holds exactly. -/
theorem parseImageName_follows_rule_after_tag_strip (name : String) :
    parseImageName name = specSplitRule (stripTagPart name)
    ∧ (goContainsChar name ':' = false → parseImageName name = specSplitRule name) := by
  constructor
  · rfl
  · intro h
    have hs : stripTagPart name = name := by
      simp [stripTagPart, h]
    calc parseImageName name = specSplitRule (stripTagPart name) := rfl
      _ = specSplitRule name := by rw [hs]

/-- Witness for the amended C8 theorem at the colon-free name
`"grafana/grafana"`. -/
theorem parseImageName_follows_rule_witness :
    parseImageName "grafana/grafana" = specSplitRule "grafana/grafana" :=
  (parseImageName_follows_rule_after_tag_strip "grafana/grafana").2 rfl

/-! ## Claim C10: successful fetches are never empty, Latest resolves -/

/-- Claim C10: whenever a tag fetch succeeds the returned list is
non-empty (an empty hub answer is replaced by `["latest"]` and custom
registries always answer `["latest"]`), so `ValidateImageExists` returns
`true` on every successful fetch, the "image does not exist" branch of
`LatestStrategy.GetLatestTag` is unreachable, and that strategy resolves
to `"latest"` exactly when the fetch succeeds. -/
theorem latest_fetch_success_yields_latest (env : RegistryEnv) (name image : String) :
    (∀ tags, getImageTags env name = Except.ok tags →
      tags ≠ [] ∧ validateImageExists env name = Except.ok true)
    ∧ ((∃ tags, getImageTags env (latestExtractImageName image) = Except.ok tags) →
      latestGetLatestTag env image = Except.ok "latest") := by
  have key : ∀ (nm : String) (tags : List String), getImageTags env nm = Except.ok tags →
      tags ≠ [] ∧ validateImageExists env nm = Except.ok true := by
    intro nm tags htags
    have hne : tags ≠ [] := by
      unfold getImageTags at htags
      by_cases hreg : (parseImageName nm).1 = "docker.io" ∨ (parseImageName nm).1 = ""
      · rw [if_pos hreg] at htags
        unfold getDockerHubTags at htags
        cases hh : env.hub (parseImageName nm).2 with
        | error e => rw [hh] at htags; simp [Except.map] at htags
        | ok names =>
          rw [hh] at htags
          simp only [Except.map, Except.ok.injEq] at htags
          subst htags
          unfold dockerHubTagsOfResults
          split
          · simp
          · next hemp =>
            intro hnil
            subst hnil
            simp at hemp
      · rw [if_neg hreg] at htags
        simp only [getRegistryTags, Except.ok.injEq] at htags
        subst htags
        simp
    refine ⟨hne, ?_⟩
    unfold validateImageExists
    rw [htags]
    have : decide (0 < tags.length) = true := by
      simp [List.length_pos]
      exact hne
    simp [Except.map, this]
  constructor
  · exact fun tags h => key name tags h
  · rintro ⟨tags, htags⟩
    have h2 := (key (latestExtractImageName image) tags htags).2
    show (match validateImageExists env (latestExtractImageName image) with
      | Except.error e =>
        Except.error ("验证镜像 " ++ latestExtractImageName image ++ " 时出错: " ++ e)
      | Except.ok ex =>
        if !ex then Except.error ("镜像 " ++ latestExtractImageName image ++ " 不存在")
        else Except.ok "latest") = Except.ok "latest"
    rw [h2]
    rfl

/-- Witness for C10 with the concrete environment whose hub endpoint
answers with zero tags: the fetch for `nginx` succeeds with the synthetic
`["latest"]`, validation reports existence, and the Latest strategy
resolves `nginx:1.25` to `"latest"`. -/
theorem latest_fetch_success_yields_latest_witness :
    ((["latest"] : List String) ≠ []
      ∧ validateImageExists envHubEmpty "nginx" = Except.ok true)
    ∧ latestGetLatestTag envHubEmpty "nginx:1.25" = Except.ok "latest" :=
  ⟨(latest_fetch_success_yields_latest envHubEmpty "nginx" "nginx:1.25").1 ["latest"] rfl,
   (latest_fetch_success_yields_latest envHubEmpty "nginx" "nginx:1.25").2 ⟨["latest"], rfl⟩⟩

/-! ## Claim C2: dry-run results -/

/-- Claim C2 counterexample: in dry-run mode the loop over the service map
carries no image filter, so the build-only service `worker` *does* produce
a simulated result: the file with services `web` (image) and `worker` (no
image) yields two simulated results, not one. -/
theorem dryrun_emits_result_for_buildonly_service :
    updateComposeFileWithProgress ⟨true⟩ envAllOk cfWebWorker
      = Except.ok [simulatedResult "web", simulatedResult "worker"]
    ∧ (simulatedResult "worker").service = "worker"
    ∧ [simulatedResult "web", simulatedResult "worker"].length = 2 :=
  ⟨rfl, rfl, rfl⟩

/-- Claim C2 (amended): in dry-run mode exactly one simulated successful
result is produced per service — including build-only services with an
empty image, which are not skipped. -/
theorem dryrun_simulates_every_service (cfg : UpdaterConfig) (env : FileEnv)
    (cf : GoComposeFile) (hd : cfg.dryRun = true) (he : env.fileWasFound = true) :
    updateComposeFileWithProgress cfg env cf
      = Except.ok (cf.services.map (fun sv => simulatedResult sv.1)) := by
  simp [updateComposeFileWithProgress, hd, he]

/-- Witness for the amended C2 theorem at the `web`/`worker` file. -/
theorem dryrun_simulates_every_service_witness :
    updateComposeFileWithProgress ⟨true⟩ envAllOk cfWebWorker
      = Except.ok (cfWebWorker.services.map (fun sv => simulatedResult sv.1)) :=
  dryrun_simulates_every_service ⟨true⟩ envAllOk cfWebWorker rfl rfl

/-! ## Claim C5: batch coverage of submitted files -/

/-- Claim C5 counterexample: a submitted file whose only service is
build-only is silently dropped — the batch over that one file returns the
empty result list. -/
theorem batch_drops_buildonly_file :
    updateImagesWithProgress ⟨false⟩ [(envAllOk, cfBuildOnly)] = [] := rfl

/-- Claim C5 (amended): the aggregate is the concatenation of per-file
blocks, and every submitted file that carries at least one service with a
non-empty image contributes at least one result (success, failure or
simulated); a file with no image-bearing service may contribute none.
This holds for both `UpdateImagesWithProgress` and `UpdateImages`. -/
theorem batch_covers_image_bearing_files (cfg : UpdaterConfig)
    (files : List (FileEnv × GoComposeFile)) (filesS : List (SimpleEnv × GoComposeFile)) :
    updateImagesWithProgress cfg files
      = (files.map (fun p => fileResults cfg p.1 p.2)).flatten
    ∧ (∀ p ∈ files, (∃ sv ∈ p.2.services, sv.2.image ≠ "") →
        fileResults cfg p.1 p.2 ≠ [])
    ∧ (∀ p ∈ filesS, (∃ sv ∈ p.2.services, sv.2.image ≠ "") →
        fileResultsSimple cfg p.1 p.2 ≠ []) := by
  refine ⟨rfl, ?_, ?_⟩
  · rintro ⟨env, cf⟩ hp ⟨sv, hsv, him⟩
    cases h : updateComposeFileWithProgress cfg env cf with
    | error e => simp [fileResults, h]
    | ok rs =>
      simp only [fileResults, h]
      unfold updateComposeFileWithProgress at h
      cases hf : env.fileWasFound with
      | false => rw [hf] at h; simp at h
      | true =>
        rw [hf] at h
        cases hd : cfg.dryRun with
        | true =>
          rw [hd] at h
          simp only [Bool.not_true, Bool.false_eq_true, if_false, if_true,
            Except.ok.injEq] at h
          subst h
          simp only [ne_eq, List.map_eq_nil_iff]
          exact List.ne_nil_of_mem hsv
        | false =>
          rw [hd] at h
          simp only [Bool.not_true, Bool.false_eq_true, if_false] at h
          cases hpull : env.pull with
          | ran waitErr =>
            rw [hpull] at h
            simp only [executePull, Except.ok.injEq] at h
            subst h
            intro hnil
            have hleft := (List.append_eq_nil.mp hnil).1
            exact cmMemFilterMapNeNil _ cf.services sv _ hsv
              (by simp only [if_neg him]; rfl) hleft
          | stdoutPipeFail m => rw [hpull] at h; simp [executePull] at h
          | stderrPipeFail m => rw [hpull] at h; simp [executePull] at h
          | startFail m => rw [hpull] at h; simp [executePull] at h
  · rintro ⟨env, cf⟩ hp ⟨sv, hsv, him⟩
    cases h : updateComposeFileSimple cfg env cf with
    | error e => simp [fileResultsSimple, h]
    | ok rs =>
      simp only [fileResultsSimple, h]
      unfold updateComposeFileSimple at h
      cases hf : env.fileWasFound with
      | false => rw [hf] at h; simp at h
      | true =>
        rw [hf] at h
        cases hd : cfg.dryRun with
        | true =>
          rw [hd] at h
          simp only [Bool.not_true, Bool.false_eq_true, if_false, if_true,
            Except.ok.injEq] at h
          subst h
          simp only [ne_eq, List.map_eq_nil_iff]
          exact List.ne_nil_of_mem hsv
        | false =>
          rw [hd] at h
          simp only [Bool.not_true, Bool.false_eq_true, if_false] at h
          cases hpe : env.pullErr with
          | some e => rw [hpe] at h; simp at h
          | none =>
            rw [hpe] at h
            cases hue : env.upErr with
            | some e => rw [hue] at h; simp at h
            | none =>
              rw [hue] at h
              simp only [Except.ok.injEq] at h
              subst h
              intro hnil
              exact cmMemFilterMapNeNil _ cf.services sv _ hsv
                (by simp only [if_neg him]; rfl) hnil

/-- Witness for the amended C5 theorem: the `web`/`worker` file carries an
image-bearing service, so its block is non-empty. -/
theorem batch_covers_image_bearing_files_witness :
    fileResults ⟨false⟩ envAllOk cfWebWorker ≠ [] :=
  (batch_covers_image_bearing_files ⟨false⟩ [(envAllOk, cfWebWorker)] []).2.1
    (envAllOk, cfWebWorker) (by simp) ⟨svcWeb, by simp [cfWebWorker], by decide⟩

/-! ## Claim C6: success determination of the pull phase -/

/-- Claim C6 (code bug, evaluated at the failing input): in the legacy
simple path both subprocesses exit zero (no process error), yet the
emitted result for `web` is marked failed because the pull output happens
to contain the substring `"failed"` — success is decided by text-pattern
matching there, contradicting the exit-status-only contract (which the
progress path `executeDockerComposePullWithProgress` does satisfy). -/
theorem simple_path_success_uses_text_matching :
    envSimpleTextFail.pullErr = none ∧ envSimpleTextFail.upErr = none
    ∧ updateComposeFileSimple ⟨false⟩ envSimpleTextFail cfWebWorker
      = Except.ok [⟨"web", "nginx:latest", "nginx:latest", false,
          some "更新过程中出现错误，请检查日志"⟩] :=
  ⟨rfl, rfl, rfl⟩

/-! ## Claim C7: a failed pull and the recreate phase -/

/-- Claim C7 counterexample: when the pull subprocess runs and fails (for
example killed at the timeout), `executeDockerComposePullWithProgress`
returns per-service failure results with a nil error, so the recreate
phase *is* invoked and the file contributes per-service results rather
than one synthetic failure. -/
theorem pull_failure_still_invokes_up :
    upPhaseInvoked ⟨false⟩ envPullTimeout = true
    ∧ updateComposeFileWithProgress ⟨false⟩ envPullTimeout cfWebWorker
      = Except.ok
          [⟨"web", "nginx:latest", "nginx:latest", false,
            some "signal: killed (context deadline exceeded)"⟩,
           ⟨"web", "nginx:latest", "nginx:latest (已重启)", true, none⟩] :=
  ⟨rfl, rfl⟩

/-- Claim C7 (amended): only a pull phase that fails before its subprocess
runs (pipe creation or start failure) aborts the file: then the recreate
phase is never invoked, the file contributes exactly one synthetic failure
result, and the batch proceeds with the remaining files.  A pull
subprocess that runs and exits non-zero (or times out) instead yields
per-service failure results and the recreate phase still runs. -/
theorem pull_startup_failure_skips_up (cfg : UpdaterConfig) (env : FileEnv)
    (cf : GoComposeFile) (rest : List (FileEnv × GoComposeFile))
    (hd : cfg.dryRun = false) (he : env.fileWasFound = true)
    (hp : pullPhaseErrored env.pull = true) :
    upPhaseInvoked cfg env = false
    ∧ (∃ msg, fileResults cfg env cf
        = [⟨"文件: " ++ filepathBase cf.filePath, "N/A", "N/A", false, some msg⟩])
    ∧ updateImagesWithProgress cfg ((env, cf) :: rest)
        = fileResults cfg env cf ++ updateImagesWithProgress cfg rest := by
  refine ⟨?_, ?_, rfl⟩
  · simp [upPhaseInvoked, hp]
  · cases hpe : env.pull with
    | ran w => rw [hpe] at hp; simp [pullPhaseErrored] at hp
    | stdoutPipeFail m =>
      exact ⟨"拉取镜像失败: " ++ ("无法获取stdout管道: " ++ m),
        by simp [fileResults, updateComposeFileWithProgress, he, hd, hpe, executePull]⟩
    | stderrPipeFail m =>
      exact ⟨"拉取镜像失败: " ++ ("无法获取stderr管道: " ++ m),
        by simp [fileResults, updateComposeFileWithProgress, he, hd, hpe, executePull]⟩
    | startFail m =>
      exact ⟨"拉取镜像失败: " ++ ("启动命令失败: " ++ m),
        by simp [fileResults, updateComposeFileWithProgress, he, hd, hpe, executePull]⟩

/-- Witness for the amended C7 theorem at a pull phase whose subprocess
cannot start. -/
theorem pull_startup_failure_skips_up_witness :
    upPhaseInvoked ⟨false⟩ envPullStartFail = false
    ∧ (∃ msg, fileResults ⟨false⟩ envPullStartFail cfWebWorker
        = [⟨"文件: " ++ filepathBase cfWebWorker.filePath, "N/A", "N/A", false, some msg⟩])
    ∧ updateImagesWithProgress ⟨false⟩ [(envPullStartFail, cfWebWorker)]
        = fileResults ⟨false⟩ envPullStartFail cfWebWorker
          ++ updateImagesWithProgress ⟨false⟩ [] :=
  pull_startup_failure_skips_up ⟨false⟩ envPullStartFail cfWebWorker [] rfl rfl rfl

end Compman
